import Mathlib

/-
  Verification development for the mysqldump Go library (mysqldump.go and the
  restore-side example caller).  The Go sources are shallowly embedded: strings
  become lists of characters, the database connection becomes an oracle record
  of query results, and the buffered writer becomes explicit lists of emitted
  statements.  Fallible operations return Except or Option values.
-/

namespace Mysqldump

/-- Go strings are embedded as lists of characters. -/
abbrev Str := List Char

/-- The single-quote character (ASCII 39). -/
def qc : Char := Char.ofNat 39

/-- The backslash character (ASCII 92). -/
def bsc : Char := Char.ofNat 92

/-- Embedding of Go strings.ReplaceAll with a one-character pattern, used by
the serializer as strings.ReplaceAll(value, single-quote, two single-quotes). -/
def replaceChar (a : Char) (rep : Str) : Str → Str
  | [] => []
  | c :: cs => if c = a then rep ++ replaceChar a rep cs else c :: replaceChar a rep cs

/-- The per-value escaping step of writeTableData: double every single quote. -/
def escapeQuotes (v : Str) : Str := replaceChar qc [qc, qc] v

/-- One cell of a scanned row rendered to SQL, per writeTableData: a valid
nullable string is escaped and wrapped in single quotes, NULL renders bare. -/
def cellToSQL : Option Str → Str
  | some v => qc :: (escapeQuotes v ++ [qc])
  | none => "NULL".toList

/-- Embedding of Go strings.Join. -/
def joinSep (sep : Str) : List Str → Str
  | [] => []
  | [x] => x
  | x :: y :: rest => x ++ sep ++ joinSep sep (y :: rest)

/-- One row rendered as a parenthesised tuple of literals, per writeTableData. -/
def rowTuple (row : List (Option Str)) : Str :=
  "(".toList ++ joinSep ",".toList (row.map cellToSQL) ++ ")".toList

/-- A column name wrapped in backticks, per writeTableData. -/
def quoteCol (c : Str) : Str := "`".toList ++ c ++ "`".toList

/-- The comma-joined quoted column list computed once per table. -/
def columnNames (cols : List Str) : Str := joinSep ",".toList (cols.map quoteCol)

/-- Embedding of Go strings.ReplaceAll with the two-character pattern
backslash-quote replaced by backslash-backslash-quote, applied by
writeDataInsertToBuffer to the whole statement. -/
def replaceBsq : Str → Str
  | [] => []
  | [c] => [c]
  | c1 :: c2 :: cs =>
    if c1 = bsc ∧ c2 = qc then bsc :: bsc :: qc :: replaceBsq cs
    else c1 :: replaceBsq (c2 :: cs)

/-- The INSERT statement text as formatted by fmt.Sprintf in
writeDataInsertToBuffer, before the backslash-quote rewrite. -/
def rawInsertStatement (table cn : Str) (dvs : List Str) : Str :=
  "INSERT INTO `".toList ++ table ++ "` (".toList ++ cn ++ ") VALUES ".toList ++
    joinSep ",".toList dvs ++ ";\n".toList

/-- Embedding of writeDataInsertToBuffer: format the statement, then rewrite
every backslash-quote pair to backslash-backslash-quote. -/
def writeDataInsertToBuffer (table cn : Str) (dvs : List Str) : Str :=
  replaceBsq (rawInsertStatement table cn dvs)

/-- A scanned row: one nullable textual value per column. -/
abbrev Row := List (Option Str)

/-- The row-accumulation loop of writeTableData.  Each list element is one
result of rows.Next plus rows.Scan; a scan error aborts immediately.  Rows are
accumulated into dataValueString; when rowNumber reaches 600 the batch is
flushed, and a non-empty trailing batch is flushed after the loop.  The result
collects the flushed batches in order together with the error, if any. -/
def dataLoop : List (Except Str Row) → List Str → Nat → List (List Str) × Option Str
  | [], dataValueString, rowNumber =>
    if 0 < rowNumber then ([dataValueString], none) else ([], none)
  | r :: rest, dataValueString, rowNumber =>
    match r with
    | .error e => ([], some e)
    | .ok row =>
      let dvs := dataValueString ++ [rowTuple row]
      let rn := rowNumber + 1
      if 600 ≤ rn then
        let res := dataLoop rest [] 0
        (dvs :: res.1, res.2)
      else dataLoop rest dvs rn

/-- The database connection, embedded as an oracle of query outcomes.
selectAll bundles the full-table scan: the query and column introspection
(either can fail, collapsed into the outer Except) and the stream of
row-scan results. -/
structure DB where
  execUse : Except Str Unit
  showTables : Except Str (List Str)
  showViews : Except Str (List Str)
  createStmt : Str → Except Str Str
  countRows : Str → Except Str Nat
  selectAll : Str → Except Str (List Str × List (Except Str Row))

/-- Whether an Except value is a success. -/
def isOkE : Except Str α → Bool
  | .ok _ => true
  | .error _ => false

/-- The advisory row count observed by writeTableData: the COUNT query result
when it succeeds; the scan error of the count row is ignored, so on failure
the count variable keeps its zero value. -/
def advisoryCount (db : DB) (t : Str) : Nat :=
  match db.countRows t with
  | .ok n => n
  | .error _ => 0

/-- The outcome of writeTableData: the advisory count it returns, the
comma-joined column list, the flushed batches, and the error, if any. -/
structure WTDResult where
  totalRow : Nat
  colNames : Str
  batches : List (List Str)
  error : Option Str
deriving DecidableEq

/-- Embedding of writeTableData: read the advisory count (ignoring its scan
error), run the full-table scan, and accumulate batches only when the
advisory count is positive. -/
def writeTableData (db : DB) (t : Str) : WTDResult :=
  let totalRow := advisoryCount db t
  match db.selectAll t with
  | .error e => ⟨totalRow, [], [], some e⟩
  | .ok scan =>
    let cn := columnNames scan.1
    if 0 < totalRow then
      let res := dataLoop scan.2 [] 0
      ⟨totalRow, cn, res.1, res.2⟩
    else ⟨totalRow, cn, [], none⟩

/-- The emitted INSERT statements of one table: one call of
writeDataInsertToBuffer per flushed batch. -/
def insertStatements (db : DB) (t : Str) : List Str :=
  (writeTableData db t).batches.map
    (fun b => writeDataInsertToBuffer t (writeTableData db t).colNames b)

/-- The dump option record built by the functional options; the writer field
is omitted as pure output plumbing. -/
structure DumpOptions where
  isData : Bool
  tables : List Str
  views : List Str
  isAllTable : Bool
  isDropTable : Bool
  isDropView : Bool
  isAllViews : Bool
  withUseDatabase : Bool
  withTransaction : Bool
deriving DecidableEq

/-- The zero-valued option record before any functional option is applied. -/
def defaultOptions : DumpOptions :=
  ⟨false, [], [], false, false, false, false, false, false⟩

/-- The adjustment at the top of Dump: an empty explicit table list turns on
the all-tables flag. -/
def resolveOptions (o : DumpOptions) : DumpOptions :=
  if o.tables = [] then { o with isAllTable := true } else o

/-- Embedding of slices.Index followed by slices.Delete in Dump: remove the
first occurrence of a name from the table list, if present. -/
def removeFirstTable (v : Str) : List Str → List Str
  | [] => []
  | t :: ts => if t = v then ts else t :: removeFirstTable v ts

/-- The view-removal loop of Dump: for each discovered view name, delete its
first occurrence from the table list. -/
def removeViews (views : List Str) (tables : List Str) : List Str :=
  views.foldl (fun ts v => removeFirstTable v ts) tables

/-- The table list Dump selects before view removal: the discovered tables
when the (resolved) all-tables flag is set, the explicit list otherwise. -/
def selectedTables (o : DumpOptions) (allTables : List Str) : List Str :=
  if (resolveOptions o).isAllTable then allTables else (resolveOptions o).tables

/-- The same selection inside Dump, where discovering all tables can fail. -/
def selectedTablesE (db : DB) (o : DumpOptions) : Except Str (List Str) :=
  if (resolveOptions o).isAllTable then db.showTables
  else Except.ok (resolveOptions o).tables

/-- The order in which Dump emits table blocks: the selected list with view
names removed, in selection order (no reordering of any kind). -/
def tableEmissionOrder (o : DumpOptions) (allTables dbViews : List Str) : List Str :=
  removeViews dbViews (selectedTables o allTables)

/-- The per-table loop of Dump: emit the create statement (fails on lookup
error), then, with data enabled, run writeTableData, add the count it returns
to the running sum, and abort on its error.  Result: tables fully processed,
accumulated row sum, error. -/
def dumpTablesLoop (db : DB) (withData : Bool) : List Str → List Str × Nat × Option Str
  | [] => ([], 0, none)
  | t :: ts =>
    match db.createStmt t with
    | .error e => ([], 0, some e)
    | .ok _ =>
      if withData then
        let w := writeTableData db t
        match w.error with
        | some e => ([t], w.totalRow, some e)
        | none =>
          let r := dumpTablesLoop db withData ts
          (t :: r.1, w.totalRow + r.2.1, r.2.2)
      else
        let r := dumpTablesLoop db withData ts
        (t :: r.1, r.2.1, r.2.2)

/-- The per-view loop of Dump: emit each create statement, abort on error. -/
def dumpViewsLoop (db : DB) : List Str → List Str × Option Str
  | [] => ([], none)
  | v :: vs =>
    match db.createStmt v with
    | .error e => ([], some e)
    | .ok _ =>
      let r := dumpViewsLoop db vs
      (v :: r.1, r.2)

/-- The list of view names Dump uses for view removal: the result of the
view-listing query when it succeeds, and the nil slice when it fails (the
error is not inspected at this point in the source). -/
def dumpViewNames (db : DB) : List Str :=
  match db.showViews with
  | .ok vs => vs
  | .error _ => []

/-- The observable outcome of Dump: which table and view blocks were emitted,
the aggregate row count written in the footer (absent when the dump aborted
before the footer), and the returned error. -/
structure DumpResult where
  tablesDumped : List Str
  viewsDumped : List Str
  footerTableRows : Option Nat
  error : Option Str
deriving DecidableEq

/-- Embedding of Dump: resolve options, issue USE, resolve the table list,
list views (the error being checked only when all-views is requested), remove
view names from the table list, run the table loop and the view loop, and
write the footer with the accumulated row sum on success. -/
def Dump (db : DB) (o0 : DumpOptions) : DumpResult :=
  let o := resolveOptions o0
  match db.execUse with
  | .error e => ⟨[], [], none, some e⟩
  | .ok _ =>
    match selectedTablesE db o0 with
    | .error e => ⟨[], [], none, some e⟩
    | .ok ts0 =>
      let tables := removeViews (dumpViewNames db) ts0
      match (if o.isAllViews then db.showViews else .ok o.views) with
      | .error e => ⟨[], [], none, some e⟩
      | .ok views =>
        let tr := dumpTablesLoop db o.isData tables
        match tr.2.2 with
        | some e => ⟨tr.1, [], none, some e⟩
        | none =>
          let vr := dumpViewsLoop db views
          match vr.2 with
          | some e => ⟨tr.1, vr.1, none, some e⟩
          | none => ⟨tr.1, vr.1, some tr.2.1, none⟩

/-- Splitting a list into consecutive chunks of n elements (the last chunk
may be shorter); the combinatorial core of the batching loops. -/
def chunks (n : Nat) : List α → List (List α)
  | [] => []
  | x :: xs => (x :: xs.take (n - 1)) :: chunks n (xs.drop (n - 1))
termination_by l => l.length
decreasing_by simp [List.length_drop]; omega

/-- The body of a single-quoted SQL literal read back under the standard
quote-doubling convention: a doubled quote yields one quote, a single quote
ends the literal (which must end the string), anything else is literal. -/
def unquoteBody : Str → Option Str
  | [] => none
  | [c] => if c = qc then some [] else none
  | c :: c2 :: cs =>
    if c = qc then
      (if c2 = qc then (unquoteBody cs).map (fun t => qc :: t) else none)
    else (unquoteBody (c2 :: cs)).map (fun t => c :: t)

/-- Re-parse a complete single-quoted SQL literal. -/
def unquoteLiteral : Str → Option Str
  | [] => none
  | c :: cs => if c = qc then unquoteBody cs else none

/-- A parsed INSERT statement on the restore side: target table and the list
of value tuples (each kept as raw text). -/
structure InsertStmt where
  table : Str
  tuples : List Str
deriving DecidableEq

/-- Modelled from the spec: the restore-side Statement Re-batcher (the Source
function with the merge-insert option) is not among the sources; only its
caller is.  Per the spec, statements recognised as single-batch INSERT
statements targeting the given table are accumulated and re-flushed as larger
INSERT statements of up to n tuples; any other statement flushes the pending
batch and is executed unmodified; a non-empty pending batch is flushed at end
of stream.  The result is the list of statements executed. -/
def mergeRun (n : Nat) (t : Str) : List InsertStmt → List Str → List InsertStmt
  | [], acc => if acc = [] then [] else [⟨t, acc⟩]
  | s :: ss, acc =>
    if s.table = t ∧ s.tuples.length = 1 then
      let acc2 := acc ++ s.tuples
      if n ≤ acc2.length then ⟨t, acc2⟩ :: mergeRun n t ss []
      else mergeRun n t ss acc2
    else (if acc = [] then [] else [⟨t, acc⟩]) ++ s :: mergeRun n t ss []

/-- Modelled from the spec: with merge size zero or absent every statement is
executed immediately and unmodified, otherwise the re-batching loop runs. -/
def sourceMerge (n : Nat) (t : Str) (stmts : List InsertStmt) : List InsertStmt :=
  if n = 0 then stmts else mergeRun n t stmts []

/-- Dependency-respecting order: for every foreign-key edge, written as the
pair (referencing table, referenced table), the referenced table occurs
strictly before the referencing table. -/
def depRespecting (order : List Str) (edges : List (Str × Str)) : Prop :=
  ∀ e ∈ edges, order.indexOf e.2 < order.indexOf e.1

instance (order : List Str) (edges : List (Str × Str)) :
    Decidable (depRespecting order edges) :=
  List.decidableBAll _ edges

/-- Concrete data used to evaluate the development at specific inputs. -/
def tnam : Str := "t".toList

def cid : Str := "id".toList

def cnames : Str := columnNames [cid]

def vx : Str := "x".toList

def rowx : Row := [some vx]

def emsg : Str := "boom".toList

def ta : Str := "a".toList

def tb : Str := "b".toList

def tv : Str := "v".toList

def okCreate : Str := "CREATE TABLE IF NOT EXISTS t".toList

/-- A single-table database oracle with the given count and scan outcomes. -/
def mkDB (cnt : Except Str Nat)
    (scan : Except Str (List Str × List (Except Str Row))) : DB :=
  { execUse := .ok (), showTables := .ok [tnam], showViews := .ok [],
    createStmt := fun _ => .ok okCreate, countRows := fun _ => cnt,
    selectAll := fun _ => scan }

def dbC1x : DB := mkDB (.ok 0) (.ok ([cid], [.ok rowx]))

def dbC1w : DB := mkDB (.ok 1) (.ok ([cid], [.ok rowx]))

def dbC2w : DB := { mkDB (.ok 1) (.ok ([cid], [.ok rowx])) with showTables := .ok [ta, tb] }

def dbC4x : DB := mkDB (.error emsg) (.ok ([cid], [.ok rowx]))

def dbC4w : DB := mkDB (.ok 5) (.ok ([cid], [.ok rowx]))

def dbC5x : DB := mkDB (.ok 5) (.ok ([cid], [.ok rowx]))

def dbC5w : DB := mkDB (.ok 2) (.ok ([cid], [.ok rowx, .ok rowx]))

def dbC8x : DB := mkDB (.error emsg) (.ok ([cid], [.ok rowx]))

def dbC8w : DB := mkDB (.ok 1) (.ok ([cid], [.ok rowx]))

def dbC10w : DB := mkDB (.ok 1) (.ok ([cid], [.ok rowx]))

def oData : DumpOptions := { defaultOptions with isData := true }

def oC7x : DumpOptions := { defaultOptions with tables := [tv, tv] }

end Mysqldump

namespace Mysqldump

theorem chunks_nil (n : Nat) : chunks n ([] : List α) = [] := by
  simp [chunks]

theorem chunks_cons (n : Nat) (x : α) (xs : List α) :
    chunks n (x :: xs) = (x :: xs.take (n - 1)) :: chunks n (xs.drop (n - 1)) := by
  rw [chunks]

theorem chunks_append_of_length (n : Nat) (hn : 0 < n) (a b : List α) (ha : a.length = n) :
    chunks n (a ++ b) = a :: chunks n b := by
  cases a with
  | nil => simp at ha; omega
  | cons x xs =>
    have hxs : xs.length = n - 1 := by simp at ha; omega
    simp only [List.cons_append]
    rw [chunks_cons]
    rw [← hxs, List.take_left, List.drop_left]

theorem chunks_length (n : Nat) (hn : 0 < n) (l : List α) :
    (chunks n l).length = (l.length + (n - 1)) / n := by
  induction l using chunks.induct n with
  | case1 => simp [chunks_nil, Nat.div_eq_of_lt (by omega : n - 1 < n)]
  | case2 x xs ih =>
    rw [chunks_cons, List.length_cons, ih, List.length_drop, List.length_cons]
    have h1 : xs.length + 1 + (n - 1) = xs.length + n := by omega
    rw [h1, Nat.add_div_right _ hn]
    rcases le_or_lt (n - 1) xs.length with h | h
    · rw [Nat.sub_add_cancel h]
    · have h0 : xs.length - (n - 1) = 0 := by omega
      rw [h0, Nat.zero_add, Nat.div_eq_of_lt (by omega), Nat.div_eq_of_lt (by omega)]

theorem chunks_flatten (n : Nat) (l : List α) : (chunks n l).flatten = l := by
  induction l using chunks.induct n with
  | case1 => simp [chunks_nil]
  | case2 x xs ih =>
    rw [chunks_cons, List.flatten_cons, ih]
    simp [List.take_append_drop]

theorem chunks_mem (n : Nat) (hn : 0 < n) (l : List α) (b : List α)
    (hb : b ∈ chunks n l) : b.length ≤ n ∧ b ≠ [] := by
  induction l using chunks.induct n with
  | case1 => simp [chunks_nil] at hb
  | case2 x xs ih =>
    rw [chunks_cons] at hb
    rcases List.mem_cons.mp hb with h | h
    · subst h
      constructor
      · simp [List.length_take]; omega
      · simp
    · exact ih h

theorem chunks_dropLast (n : Nat) (hn : 0 < n) (l : List α) (b : List α)
    (hb : b ∈ (chunks n l).dropLast) : b.length = n := by
  induction l using chunks.induct n with
  | case1 => simp [chunks_nil] at hb
  | case2 x xs ih =>
    rw [chunks_cons] at hb
    cases hd : xs.drop (n - 1) with
    | nil => rw [hd, chunks_nil] at hb; simp at hb
    | cons y ys =>
      rw [hd, chunks_cons] at hb
      rw [List.dropLast_cons₂] at hb
      rcases List.mem_cons.mp hb with h | h
      · subst h
        have hlen : n - 1 < xs.length := by
          by_contra hc
          push_neg at hc
          rw [List.drop_eq_nil_of_le hc] at hd
          exact List.noConfusion hd
        simp [List.length_take]
        omega
      · apply ih
        rw [hd, chunks_cons]
        exact h

theorem chunks_getLast (n : Nat) (hn : 0 < n) (l : List α) (b : List α)
    (hb : (chunks n l).getLast? = some b) :
    b.length = if l.length % n = 0 then n else l.length % n := by
  induction l using chunks.induct n with
  | case1 => rw [chunks_nil] at hb; simp at hb
  | case2 x xs ih =>
    rw [chunks_cons] at hb
    cases hd : xs.drop (n - 1) with
    | nil =>
      rw [hd, chunks_nil] at hb
      simp at hb
      have hle : xs.length ≤ n - 1 := by
        by_contra hc
        push_neg at hc
        rw [List.drop_eq_nil_iff] at hd
        omega
      have hblen : b.length = xs.length + 1 := by
        rw [← hb]; simp [List.length_take]; omega
      rcases Nat.lt_or_ge (xs.length + 1) n with h | h
      · rw [if_neg, List.length_cons]
        · rw [hblen, Nat.mod_eq_of_lt h]
        · rw [List.length_cons, Nat.mod_eq_of_lt h]; omega
      · have heq : xs.length + 1 = n := by omega
        rw [List.length_cons, heq, Nat.mod_self, if_pos rfl, hblen, heq]
    | cons y ys =>
      rw [hd, chunks_cons] at hb
      rw [List.getLast?_cons_cons] at hb
      have hlen : n - 1 < xs.length := by
        by_contra hc
        push_neg at hc
        rw [List.drop_eq_nil_of_le hc] at hd
        exact List.noConfusion hd
      have := ih (by rw [hd, chunks_cons]; exact hb)
      rw [List.length_drop] at this
      have hsub : xs.length - (n - 1) = xs.length + 1 - n := by omega
      rw [hsub] at this
      rw [List.length_cons]
      have hmod : (xs.length + 1) % n = (xs.length + 1 - n) % n :=
        Nat.mod_eq_sub_mod (by omega)
      rw [hmod]
      exact this

theorem chunks_of_short (n : Nat) (l : List α) (h0 : l ≠ []) (h : l.length ≤ n) :
    chunks n l = [l] := by
  cases l with
  | nil => exact absurd rfl h0
  | cons x xs =>
    rw [chunks_cons]
    have h1 : xs.length ≤ n - 1 := by simp at h; omega
    rw [List.take_of_length_le h1, List.drop_eq_nil_of_le h1, chunks_nil]

theorem dataLoop_eq_chunks (rows : List Row) :
    ∀ acc : List Str, acc.length < 600 →
      dataLoop (rows.map Except.ok) acc acc.length =
        (chunks 600 (acc ++ rows.map rowTuple), none) := by
  induction rows with
  | nil =>
    intro acc hacc
    cases acc with
    | nil => simp [dataLoop, chunks_nil]
    | cons a as =>
      simp only [List.map_nil, dataLoop, List.append_nil]
      rw [if_pos (by simp), chunks_of_short 600 _ (by simp) (by omega)]
  | cons r rs ih =>
    intro acc hacc
    simp only [List.map_cons, dataLoop]
    by_cases h6 : 600 ≤ acc.length + 1
    · rw [if_pos h6]
      have h600 : (acc ++ [rowTuple r]).length = 600 := by simp; omega
      have ih0 := ih [] (by simp)
      simp only [List.length_nil] at ih0
      rw [ih0]
      have hsplit : acc ++ rowTuple r :: rs.map rowTuple =
          (acc ++ [rowTuple r]) ++ rs.map rowTuple := by simp
      rw [hsplit, chunks_append_of_length 600 (by omega) _ _ h600]
      simp
    · rw [if_neg h6]
      have ih1 := ih (acc ++ [rowTuple r]) (by simp; omega)
      simp only [List.length_append, List.length_cons, List.length_nil] at ih1
      have : acc.length + (0 + 1) = acc.length + 1 := by omega
      rw [this] at ih1
      rw [ih1]
      simp

theorem mergeRun_eq_chunks (n : Nat) (hn : 0 < n) (t : Str) (rows : List Str) :
    ∀ acc : List Str, acc.length < n →
      mergeRun n t (rows.map (fun r => InsertStmt.mk t [r])) acc =
        (chunks n (acc ++ rows)).map (fun b => InsertStmt.mk t b) := by
  induction rows with
  | nil =>
    intro acc hacc
    cases acc with
    | nil => simp [mergeRun, chunks_nil]
    | cons a as =>
      simp only [List.map_nil, mergeRun, List.append_nil]
      rw [if_neg (by simp), chunks_of_short n _ (by simp) (by omega)]
      simp
  | cons r rs ih =>
    intro acc hacc
    simp only [List.map_cons, mergeRun, List.length_append, List.length_cons]
    rw [if_pos (by simp)]
    by_cases hflush : n ≤ (acc ++ [r]).length
    · rw [if_pos (by simpa using hflush)]
      have hlen : (acc ++ [r]).length = n := by simp at hflush ⊢; omega
      have ih0 := ih [] (by simp [hn])
      simp only [List.nil_append, List.length_nil] at ih0
      rw [ih0]
      have hsplit : acc ++ r :: rs = (acc ++ [r]) ++ rs := by simp
      rw [hsplit, chunks_append_of_length n hn _ _ hlen]
      simp
    · rw [if_neg (by simpa using hflush)]
      have ih1 := ih (acc ++ [r]) (by simp only [List.length_append, List.length_cons, List.length_nil] at hflush ⊢; omega)
      rw [ih1]
      simp

theorem mem_replaceChar (a : Char) (rep : Str) (c : Char) (s : Str)
    (h : c ∈ replaceChar a rep s) : c ∈ s ∨ c ∈ rep := by
  induction s with
  | nil => simp [replaceChar] at h
  | cons x xs ih =>
    simp only [replaceChar] at h
    by_cases hx : x = a
    · rw [if_pos hx] at h
      rcases List.mem_append.mp h with h1 | h1
      · right; exact h1
      · rcases ih h1 with h2 | h2
        · left; exact List.mem_cons_of_mem _ h2
        · right; exact h2
    · rw [if_neg hx] at h
      rcases List.mem_cons.mp h with h1 | h1
      · left; exact h1 ▸ List.mem_cons_self _ _
      · rcases ih h1 with h2 | h2
        · left; exact List.mem_cons_of_mem _ h2
        · right; exact h2

theorem mem_joinSep (sep : Str) (l : List Str) (c : Char)
    (h : c ∈ joinSep sep l) : c ∈ sep ∨ ∃ d ∈ l, c ∈ d := by
  induction l with
  | nil => simp [joinSep] at h
  | cons x xs ih =>
    cases xs with
    | nil =>
      right
      exact ⟨x, List.mem_cons_self _ _, by simpa [joinSep] using h⟩
    | cons y ys =>
      simp only [joinSep] at h
      rcases List.mem_append.mp h with h1 | h1
      · rcases List.mem_append.mp h1 with h2 | h2
        · right; exact ⟨x, List.mem_cons_self _ _, h2⟩
        · left; exact h2
      · rcases ih h1 with h2 | ⟨d, hd, hcd⟩
        · left; exact h2
        · right; exact ⟨d, List.mem_cons_of_mem _ hd, hcd⟩

theorem bsc_ne_qc : bsc ≠ qc := by decide

theorem bsc_not_mem_cellToSQL (cell : Option Str)
    (h : ∀ v : Str, cell = some v → bsc ∉ v) : bsc ∉ cellToSQL cell := by
  cases cell with
  | none => decide
  | some v =>
    intro hm
    simp only [cellToSQL, List.mem_cons, List.mem_append] at hm
    rcases hm with h1 | h1
    · exact bsc_ne_qc h1
    · rcases h1 with h2 | h2
      · rcases mem_replaceChar qc [qc, qc] bsc v h2 with h3 | h3
        · exact h v rfl h3
        · simp at h3; exact bsc_ne_qc h3
      · simp at h2; exact bsc_ne_qc h2

theorem bsc_not_mem_rowTuple (row : List (Option Str))
    (h : ∀ v : Str, some v ∈ row → bsc ∉ v) : bsc ∉ rowTuple row := by
  intro hm
  simp only [rowTuple, List.mem_append] at hm
  rcases hm with (h1 | h1) | h1
  · exact absurd h1 (by decide)
  · rcases mem_joinSep _ _ _ h1 with h2 | ⟨d, hd, hcd⟩
    · exact absurd h2 (by decide)
    · rcases List.mem_map.mp hd with ⟨cell, hcell, rfl⟩
      exact bsc_not_mem_cellToSQL cell (fun v hv => h v (hv ▸ hcell)) hcd
  · exact absurd h1 (by decide)

theorem bsc_not_mem_rawInsert (t cn : Str) (dvs : List Str)
    (ht : bsc ∉ t) (hcn : bsc ∉ cn) (hdvs : ∀ d ∈ dvs, bsc ∉ d) :
    bsc ∉ rawInsertStatement t cn dvs := by
  intro hm
  simp only [rawInsertStatement, List.mem_append] at hm
  rcases hm with (((((h1 | h1) | h1) | h1) | h1) | h1) | h1
  · exact absurd h1 (by decide)
  · exact ht h1
  · exact absurd h1 (by decide)
  · exact hcn h1
  · exact absurd h1 (by decide)
  · rcases mem_joinSep _ _ _ h1 with h2 | ⟨d, hd, hcd⟩
    · exact absurd h2 (by decide)
    · exact hdvs d hd hcd
  · exact absurd h1 (by decide)

theorem replaceBsq_of_not_mem (s : Str) (h : bsc ∉ s) : replaceBsq s = s := by
  induction s using replaceBsq.induct with
  | case1 => rfl
  | case2 c => rfl
  | case3 c1 c2 cs hcond ih =>
    exact absurd (hcond.1 ▸ List.mem_cons_self _ _) h
  | case4 c1 c2 cs hcond ih =>
    simp only [replaceBsq, if_neg hcond]
    rw [ih (fun hm => h (List.mem_cons_of_mem _ hm))]

theorem escapeQuotes_nil : escapeQuotes [] = [] := rfl

theorem escapeQuotes_cons (c : Char) (v : Str) :
    escapeQuotes (c :: v) =
      if c = qc then qc :: qc :: escapeQuotes v else c :: escapeQuotes v := by
  simp only [escapeQuotes, replaceChar]
  by_cases hc : c = qc
  · rw [if_pos hc, if_pos hc]; rfl
  · rw [if_neg hc, if_neg hc]

theorem unquoteBody_q : unquoteBody [qc] = some [] := by
  rfl

theorem unquoteBody_qq (rest : Str) :
    unquoteBody (qc :: qc :: rest) = (unquoteBody rest).map (fun t => qc :: t) := rfl

theorem unquoteBody_cons_ne (c : Char) (rest : Str) (hc : c ≠ qc) :
    unquoteBody (c :: rest) = (unquoteBody rest).map (fun t => c :: t) := by
  cases rest with
  | nil => simp [unquoteBody, hc]
  | cons d ds => simp [unquoteBody, hc]

theorem unquoteBody_escape (v : Str) :
    unquoteBody (escapeQuotes v ++ [qc]) = some v := by
  induction v with
  | nil => rw [escapeQuotes_nil, List.nil_append, unquoteBody_q]
  | cons c v ih =>
    rw [escapeQuotes_cons]
    by_cases hc : c = qc
    · rw [if_pos hc, List.cons_append, List.cons_append, unquoteBody_qq, ih, hc]
      rfl
    · rw [if_neg hc, List.cons_append, unquoteBody_cons_ne c _ hc, ih]
      rfl

theorem unquoteLiteral_cellToSQL (v : Str) :
    unquoteLiteral (cellToSQL (some v)) = some v := by
  simp only [cellToSQL, unquoteLiteral, if_pos rfl]
  exact unquoteBody_escape v

theorem removeFirstTable_sublist (v : Str) (ts : List Str) :
    List.Sublist (removeFirstTable v ts) ts := by
  induction ts with
  | nil => simp [removeFirstTable]
  | cons t ts ih =>
    simp only [removeFirstTable]
    by_cases h : t = v
    · rw [if_pos h]; exact List.sublist_cons_self t ts
    · rw [if_neg h]; exact List.Sublist.cons₂ t ih

theorem removeViews_cons (v : Str) (vs : List Str) (ts : List Str) :
    removeViews (v :: vs) ts = removeViews vs (removeFirstTable v ts) := rfl

theorem removeViews_sublist (vs : List Str) (ts : List Str) :
    List.Sublist (removeViews vs ts) ts := by
  induction vs generalizing ts with
  | nil => simp [removeViews]
  | cons v vs ih =>
    rw [removeViews_cons]
    exact (ih (removeFirstTable v ts)).trans (removeFirstTable_sublist v ts)

theorem not_mem_removeFirstTable_self (v : Str) (ts : List Str) (h : ts.Nodup) :
    v ∉ removeFirstTable v ts := by
  induction ts with
  | nil => simp [removeFirstTable]
  | cons t ts ih =>
    simp only [removeFirstTable]
    rcases List.nodup_cons.mp h with ⟨hnm, hnd⟩
    by_cases ht : t = v
    · rw [if_pos ht]; exact ht ▸ hnm
    · rw [if_neg ht]
      intro hm
      rcases List.mem_cons.mp hm with h1 | h1
      · exact ht h1.symm
      · exact ih hnd h1

theorem not_mem_removeViews (vs : List Str) (ts : List Str) (h : ts.Nodup) :
    ∀ v ∈ vs, v ∉ removeViews vs ts := by
  induction vs generalizing ts with
  | nil => simp
  | cons u us ih =>
    intro v hv
    rw [removeViews_cons]
    rcases List.mem_cons.mp hv with h1 | h1
    · subst h1
      intro hm
      exact not_mem_removeFirstTable_self v ts h
        ((removeViews_sublist us (removeFirstTable v ts)).subset hm)
    · exact ih (removeFirstTable u ts) ((removeFirstTable_sublist u ts).nodup h) v h1

theorem dataLoop_batch_le (rows : List (Except Str Row)) :
    ∀ (acc : List Str) (rn : Nat), acc.length < 600 → rn = acc.length →
      ∀ b ∈ (dataLoop rows acc rn).1, b.length ≤ 600 := by
  induction rows with
  | nil =>
    intro acc rn hlt hrn b hb
    simp only [dataLoop] at hb
    by_cases h0 : 0 < rn
    · rw [if_pos h0] at hb
      simp at hb
      subst hb
      omega
    · rw [if_neg h0] at hb
      simp at hb
  | cons r rs ih =>
    intro acc rn hlt hrn b hb
    cases r with
    | error e => simp [dataLoop] at hb
    | ok row =>
      simp only [dataLoop] at hb
      by_cases h6 : 600 ≤ rn + 1
      · rw [if_pos h6] at hb
        simp only [List.mem_cons] at hb
        rcases hb with h1 | h1
        · subst h1; simp; omega
        · exact ih [] 0 (by simp) rfl b h1
      · rw [if_neg h6] at hb
        exact ih (acc ++ [rowTuple row]) (rn + 1) (by simp; omega) (by simp; omega) b hb

theorem resolveOptions_isData (o : DumpOptions) : (resolveOptions o).isData = o.isData := by
  unfold resolveOptions; split <;> rfl

theorem resolveOptions_isAllViews (o : DumpOptions) :
    (resolveOptions o).isAllViews = o.isAllViews := by
  unfold resolveOptions; split <;> rfl

theorem resolveOptions_tables (o : DumpOptions) : (resolveOptions o).tables = o.tables := by
  unfold resolveOptions; split <;> rfl

theorem writeTableData_totalRow (db : DB) (t : Str) :
    (writeTableData db t).totalRow = advisoryCount db t := by
  unfold writeTableData
  cases hs : db.selectAll t with
  | error e => rfl
  | ok p =>
    by_cases hp : 0 < advisoryCount db t
    · simp only [if_pos hp]
    · simp only [if_neg hp]

theorem writeTableData_selectAll_ok (db : DB) (t : Str)
    (h : (writeTableData db t).error = none) : isOkE (db.selectAll t) = true := by
  unfold writeTableData at h
  cases hs : db.selectAll t with
  | error e => rw [hs] at h; simp at h
  | ok p => rfl

theorem writeTableData_eq (db : DB) (t : Str) (k : Nat) (cols : List Str) (rows : List Row)
    (hc : db.countRows t = .ok k) (hk : 0 < k)
    (hs : db.selectAll t = .ok (cols, rows.map Except.ok)) :
    (writeTableData db t).batches = chunks 600 (rows.map rowTuple)
    ∧ (writeTableData db t).error = none := by
  have hadv : advisoryCount db t = k := by simp [advisoryCount, hc]
  have hdl := dataLoop_eq_chunks rows [] (by simp)
  simp only [List.length_nil, List.nil_append] at hdl
  unfold writeTableData
  rw [hs]
  simp only [hadv]
  rw [if_pos hk]
  constructor
  · show (dataLoop (rows.map Except.ok) [] 0).1 = _
    rw [hdl]
  · show (dataLoop (rows.map Except.ok) [] 0).2 = none
    rw [hdl]

theorem dumpTablesLoop_nil (db : DB) (d : Bool) : dumpTablesLoop db d [] = ([], 0, none) := rfl

theorem dumpTablesLoop_cons_error (db : DB) (d : Bool) (t : Str) (ts : List Str) (e : Str)
    (hc : db.createStmt t = .error e) :
    dumpTablesLoop db d (t :: ts) = ([], 0, some e) := by
  simp [dumpTablesLoop, hc]

theorem dumpTablesLoop_cons_nodata (db : DB) (t : Str) (ts : List Str) (s : Str)
    (hc : db.createStmt t = .ok s) :
    dumpTablesLoop db false (t :: ts) =
      (t :: (dumpTablesLoop db false ts).1, (dumpTablesLoop db false ts).2.1,
        (dumpTablesLoop db false ts).2.2) := by
  simp [dumpTablesLoop, hc]

theorem dumpTablesLoop_cons_data_err (db : DB) (t : Str) (ts : List Str) (s e : Str)
    (hc : db.createStmt t = .ok s) (he : (writeTableData db t).error = some e) :
    dumpTablesLoop db true (t :: ts) = ([t], (writeTableData db t).totalRow, some e) := by
  simp [dumpTablesLoop, hc, he]

theorem dumpTablesLoop_cons_data (db : DB) (t : Str) (ts : List Str) (s : Str)
    (hc : db.createStmt t = .ok s) (he : (writeTableData db t).error = none) :
    dumpTablesLoop db true (t :: ts) =
      (t :: (dumpTablesLoop db true ts).1,
        (writeTableData db t).totalRow + (dumpTablesLoop db true ts).2.1,
        (dumpTablesLoop db true ts).2.2) := by
  simp [dumpTablesLoop, hc, he]

theorem dumpTablesLoop_ok (db : DB) (d : Bool) (ts : List Str)
    (h : (dumpTablesLoop db d ts).2.2 = none) :
    (dumpTablesLoop db d ts).1 = ts
    ∧ (dumpTablesLoop db d ts).2.1 =
        (if d then (ts.map (advisoryCount db)).sum else 0)
    ∧ ∀ t ∈ ts, isOkE (db.createStmt t) = true
        ∧ (d = true → (writeTableData db t).error = none) := by
  induction ts with
  | nil => simp [dumpTablesLoop_nil]
  | cons t ts ih =>
    cases hc : db.createStmt t with
    | error e => rw [dumpTablesLoop_cons_error db d t ts e hc] at h; simp at h
    | ok s =>
      cases d with
      | false =>
        rw [dumpTablesLoop_cons_nodata db t ts s hc] at h ⊢
        obtain ⟨h1, h2, h3⟩ := ih h
        refine ⟨by rw [h1], by simpa using h2, ?_⟩
        intro u hu
        rcases List.mem_cons.mp hu with h4 | h4
        · subst h4; exact ⟨by simp [isOkE, hc], by simp⟩
        · exact ⟨(h3 u h4).1, by simp⟩
      | true =>
        cases he : (writeTableData db t).error with
        | some e => rw [dumpTablesLoop_cons_data_err db t ts s e hc he] at h; simp at h
        | none =>
          rw [dumpTablesLoop_cons_data db t ts s hc he] at h ⊢
          simp only [] at h
          obtain ⟨h1, h2, h3⟩ := ih h
          refine ⟨by rw [h1], ?_, ?_⟩
          · simp only [if_true] at h2 ⊢
            simp [h2, writeTableData_totalRow]
          · intro u hu
            rcases List.mem_cons.mp hu with h4 | h4
            · subst h4; exact ⟨by simp [isOkE, hc], fun _ => he⟩
            · exact h3 u h4

theorem dumpViewsLoop_nil (db : DB) : dumpViewsLoop db [] = ([], none) := rfl

theorem dumpViewsLoop_cons_error (db : DB) (v : Str) (vs : List Str) (e : Str)
    (hc : db.createStmt v = .error e) :
    dumpViewsLoop db (v :: vs) = ([], some e) := by
  simp [dumpViewsLoop, hc]

theorem dumpViewsLoop_cons_ok (db : DB) (v : Str) (vs : List Str) (s : Str)
    (hc : db.createStmt v = .ok s) :
    dumpViewsLoop db (v :: vs) = (v :: (dumpViewsLoop db vs).1, (dumpViewsLoop db vs).2) := by
  simp [dumpViewsLoop, hc]

theorem Dump_execUse_error (db : DB) (o : DumpOptions) (e : Str)
    (h : db.execUse = .error e) : Dump db o = ⟨[], [], none, some e⟩ := by
  simp [Dump, h]

theorem Dump_selE_error (db : DB) (o : DumpOptions) (e : Str)
    (hu : db.execUse = .ok ()) (h : selectedTablesE db o = .error e) :
    Dump db o = ⟨[], [], none, some e⟩ := by
  simp [Dump, hu, h]

theorem Dump_views_error (db : DB) (o : DumpOptions) (ts0 : List Str) (e : Str)
    (hu : db.execUse = .ok ()) (hsel : selectedTablesE db o = .ok ts0)
    (hv : (if (resolveOptions o).isAllViews then db.showViews
            else Except.ok (resolveOptions o).views) = .error e) :
    Dump db o = ⟨[], [], none, some e⟩ := by
  simp [Dump, hu, hsel, hv]

theorem Dump_main (db : DB) (o : DumpOptions) (ts0 vws : List Str)
    (hu : db.execUse = .ok ()) (hsel : selectedTablesE db o = .ok ts0)
    (hv : (if (resolveOptions o).isAllViews then db.showViews
            else Except.ok (resolveOptions o).views) = .ok vws) :
    Dump db o =
      (let tables := removeViews (dumpViewNames db) ts0
       let tr := dumpTablesLoop db (resolveOptions o).isData tables
       match tr.2.2 with
       | some e => ⟨tr.1, [], none, some e⟩
       | none =>
         let vr := dumpViewsLoop db vws
         match vr.2 with
         | some e => ⟨tr.1, vr.1, none, some e⟩
         | none => ⟨tr.1, vr.1, some tr.2.1, none⟩) := by
  simp only [Dump, hu, hsel, hv]
  try rfl

theorem Dump_success_core (db : DB) (o : DumpOptions) (h : (Dump db o).error = none) :
    db.execUse = Except.ok ()
    ∧ isOkE (selectedTablesE db o) = true
    ∧ ((resolveOptions o).isAllViews = true → isOkE db.showViews = true)
    ∧ (∀ ts0, selectedTablesE db o = .ok ts0 →
        (Dump db o).tablesDumped = removeViews (dumpViewNames db) ts0)
    ∧ (dumpTablesLoop db (resolveOptions o).isData (Dump db o).tablesDumped).2.2 = none
    ∧ (Dump db o).footerTableRows =
        some ((dumpTablesLoop db (resolveOptions o).isData (Dump db o).tablesDumped).2.1) := by
  cases hu : db.execUse with
  | error e => rw [Dump_execUse_error db o e hu] at h; simp at h
  | ok u =>
    cases u
    cases hsel : selectedTablesE db o with
    | error e => rw [Dump_selE_error db o e hu hsel] at h; simp at h
    | ok ts0 =>
      cases hv : (if (resolveOptions o).isAllViews then db.showViews
          else Except.ok (resolveOptions o).views) with
      | error e => rw [Dump_views_error db o ts0 e hu hsel hv] at h; simp at h
      | ok vws =>
        have hD := Dump_main db o ts0 vws hu hsel hv
        cases htr : (dumpTablesLoop db (resolveOptions o).isData
            (removeViews (dumpViewNames db) ts0)).2.2 with
        | some e => rw [hD] at h; simp [htr] at h
        | none =>
          cases hvr : (dumpViewsLoop db vws).2 with
          | some e => rw [hD] at h; simp [htr, hvr] at h
          | none =>
            have hDf : Dump db o =
                ⟨(dumpTablesLoop db (resolveOptions o).isData
                    (removeViews (dumpViewNames db) ts0)).1,
                  (dumpViewsLoop db vws).1,
                  some ((dumpTablesLoop db (resolveOptions o).isData
                    (removeViews (dumpViewNames db) ts0)).2.1), none⟩ := by
              rw [hD]; simp [htr, hvr]
            obtain ⟨hl1, _hl2, _hl3⟩ := dumpTablesLoop_ok db (resolveOptions o).isData
              (removeViews (dumpViewNames db) ts0) htr
            refine ⟨rfl, by simp [isOkE], ?_, ?_, ?_, ?_⟩
            · intro hav
              rw [if_pos hav] at hv
              simp [isOkE, hv]
            · intro ts0h hselh
              injection hselh with hts
              subst hts
              rw [hDf, hl1]
            · rw [hDf]
              simp only []
              rw [hl1]
              exact htr
            · rw [hDf]
              simp only []
              rw [hl1]

/-- Characterisation of the table selection: the discovered tables are used
exactly when all-tables is requested or the explicit list is empty. -/
theorem selectedTables_eq (o : DumpOptions) (allT : List Str) :
    selectedTables o allT =
      (if o.isAllTable = true ∨ o.tables = [] then allT else o.tables) := by
  unfold selectedTables resolveOptions
  by_cases h1 : o.tables = []
  · simp [h1]
  · by_cases h2 : o.isAllTable = true
    · simp [h1, h2]
    · simp [h1, h2]

/-- C1 (amended): provided the advisory COUNT value of the table is positive
and the scan succeeds, writeTableData flushes exactly the ceiling of M over
600 batches for M scanned rows; every batch before the last holds exactly 600
tuples, and the last holds M mod 600 tuples (600 when 600 divides M), so a
non-empty partial batch at end of stream is flushed. -/
theorem C1_theorem (db : DB) (t : Str) (k : Nat) (cols : List Str) (rows : List Row)
    (hc : db.countRows t = .ok k) (hk : 0 < k)
    (hs : db.selectAll t = .ok (cols, rows.map Except.ok)) :
    (writeTableData db t).batches.length = (rows.length + 599) / 600
    ∧ (∀ b ∈ (writeTableData db t).batches.dropLast, b.length = 600)
    ∧ (∀ b, (writeTableData db t).batches.getLast? = some b →
        b.length = if rows.length % 600 = 0 then 600 else rows.length % 600) := by
  obtain ⟨hb, _⟩ := writeTableData_eq db t k cols rows hc hk hs
  rw [hb]
  refine ⟨?_, ?_, ?_⟩
  · rw [chunks_length 600 (by omega), List.length_map]
  · intro b hbm
    exact chunks_dropLast 600 (by omega) _ b hbm
  · intro b hbl
    have hlast := chunks_getLast 600 (by omega) _ b hbl
    rw [List.length_map] at hlast
    exact hlast

/-- C1 witness: the batching law evaluated on a one-row table whose advisory
count is 1. -/
theorem C1_witness :
    (writeTableData dbC1w tnam).batches.length = (([rowx] : List Row).length + 599) / 600
    ∧ (∀ b ∈ (writeTableData dbC1w tnam).batches.dropLast, b.length = 600)
    ∧ (∀ b, (writeTableData dbC1w tnam).batches.getLast? = some b →
        b.length = if ([rowx] : List Row).length % 600 = 0 then 600
          else ([rowx] : List Row).length % 600) :=
  C1_theorem dbC1w tnam 1 [cid] [rowx] rfl (by decide) rfl

/-- C1 counterexample to the claim as stated: with an advisory count of 0 and
a scan yielding one row, writeTableData emits 0 INSERT statements, not the
ceiling of 1 over 600 = 1; the partial batch is not flushed. -/
theorem C1_counterexample :
    dbC1x.selectAll tnam = .ok ([cid], [Except.ok rowx])
    ∧ ¬ ((writeTableData dbC1x tnam).batches.length = (1 + 599) / 600) := by
  refine ⟨rfl, by decide⟩

/-- C2 counterexample: for the two tables a and b with the single acyclic
foreign-key edge a references b (so the order b before a respects it), the
dump emits the discovery order a then b, which does not place the referenced
table before its referencing table. -/
theorem C2_counterexample :
    depRespecting [tb, ta] [(ta, tb)]
    ∧ (Dump dbC2w defaultOptions).tablesDumped = [ta, tb]
    ∧ ¬ depRespecting (Dump dbC2w defaultOptions).tablesDumped [(ta, tb)] := by
  refine ⟨by decide, rfl, by decide⟩

/-- C2 (amended): the dump performs no foreign-key reordering: on success the
emitted table order is exactly the selected list (discovery or explicit order)
with view names removed, an order-preserving sublist of the selection. -/
theorem C2_theorem (db : DB) (o : DumpOptions) (ts0 vs : List Str)
    (h : (Dump db o).error = none)
    (hts : selectedTablesE db o = .ok ts0)
    (hvs : db.showViews = .ok vs) :
    (Dump db o).tablesDumped = removeViews vs ts0
    ∧ List.Sublist (removeViews vs ts0) ts0 := by
  obtain ⟨_, _, _, h4, _, _⟩ := Dump_success_core db o h
  have hvn : dumpViewNames db = vs := by simp [dumpViewNames, hvs]
  refine ⟨?_, removeViews_sublist vs ts0⟩
  rw [h4 ts0 hts, hvn]

/-- C2 witness: the emission order of a successful two-table dump. -/
theorem C2_witness :
    (Dump dbC2w defaultOptions).tablesDumped = removeViews [] [ta, tb]
    ∧ List.Sublist (removeViews [] [ta, tb]) [ta, tb] :=
  C2_theorem dbC2w defaultOptions [ta, tb] [] rfl rfl rfl

/-- C3 counterexample: for the value consisting of one backslash, the emitted
statement is not the raw statement whose literal is the quote-doubled wrapped
value (the backslash-quote rewrite fires), and re-parsing the rewritten
literal yields two backslashes, not the original value. -/
theorem C3_counterexample :
    writeDataInsertToBuffer tnam cnames [rowTuple [some [bsc]]]
      ≠ rawInsertStatement tnam cnames [rowTuple [some [bsc]]]
    ∧ unquoteLiteral (replaceBsq (cellToSQL (some [bsc]))) ≠ some [bsc] := by
  exact ⟨by decide, by decide⟩

/-- C3 (amended): for rows, table and column text free of backslashes, the
emitted INSERT statement is exactly the raw statement, whose literals are the
quote-doubled values wrapped in single quotes, and re-parsing any quote-
doubled literal under the doubling convention recovers the original value. -/
theorem C3_theorem (t cn : Str) (rowsData : List (List (Option Str)))
    (ht : bsc ∉ t) (hcn : bsc ∉ cn)
    (hrows : ∀ row ∈ rowsData, ∀ v : Str, some v ∈ row → bsc ∉ v) :
    writeDataInsertToBuffer t cn (rowsData.map rowTuple)
      = rawInsertStatement t cn (rowsData.map rowTuple)
    ∧ ∀ v : Str, unquoteLiteral (cellToSQL (some v)) = some v := by
  constructor
  · unfold writeDataInsertToBuffer
    apply replaceBsq_of_not_mem
    apply bsc_not_mem_rawInsert t cn _ ht hcn
    intro d hd
    rcases List.mem_map.mp hd with ⟨row, hrow, rfl⟩
    exact bsc_not_mem_rowTuple row (fun v hv => hrows row hrow v hv)
  · exact unquoteLiteral_cellToSQL

/-- C3 witness: a single-row statement whose value is one single-quote
character, together with the universal literal round trip. -/
theorem C3_witness :
    writeDataInsertToBuffer tnam cnames ([[some [qc]]].map rowTuple)
      = rawInsertStatement tnam cnames ([[some [qc]]].map rowTuple)
    ∧ ∀ v : Str, unquoteLiteral (cellToSQL (some v)) = some v :=
  C3_theorem tnam cnames [[some [qc]]] (by decide) (by decide)
    (by
      intro row hrow v hv
      simp only [List.mem_singleton] at hrow
      subst hrow
      simp only [List.mem_singleton, Option.some.injEq] at hv
      subst hv
      decide)

/-- C4 counterexample: when the advisory COUNT query fails, its error is
ignored, the count is treated as 0 and writeTableData emits no INSERT
statements although the scan yields a row. -/
theorem C4_counterexample :
    dbC4x.countRows tnam = .error emsg
    ∧ dbC4x.selectAll tnam = .ok ([cid], [Except.ok rowx])
    ∧ (writeTableData dbC4x tnam).batches = [] := ⟨rfl, rfl, rfl⟩

/-- C4 (amended): when the advisory count is positive, every scanned row is
serialized into the flushed batches, in order, regardless of whether that
count agrees with the number of scanned rows. -/
theorem C4_theorem (db : DB) (t : Str) (k : Nat) (cols : List Str) (rows : List Row)
    (hc : db.countRows t = .ok k) (hk : 0 < k)
    (hs : db.selectAll t = .ok (cols, rows.map Except.ok)) :
    (writeTableData db t).batches.flatten = rows.map rowTuple
    ∧ (writeTableData db t).error = none := by
  obtain ⟨hb, he⟩ := writeTableData_eq db t k cols rows hc hk hs
  rw [hb, chunks_flatten]
  exact ⟨rfl, he⟩

/-- C4 witness: advisory count 5 against a one-row scan still serializes the
row. -/
theorem C4_witness :
    (writeTableData dbC4w tnam).batches.flatten = ([rowx] : List Row).map rowTuple
    ∧ (writeTableData dbC4w tnam).error = none :=
  C4_theorem dbC4w tnam 5 [cid] [rowx] rfl (by decide) rfl

/-- C5 counterexample: with advisory count 5 and one actually serialized row,
the footer reports 5, not 1. -/
theorem C5_counterexample :
    (Dump dbC5x oData).footerTableRows = some 5
    ∧ (writeTableData dbC5x tnam).batches.flatten.length = 1
    ∧ (5 : Nat) ≠ 1 := ⟨rfl, rfl, by decide⟩

/-- C5 (amended): on success the footer aggregate row count is the sum of the
advisory COUNT values returned by writeTableData over the dumped tables (0
with data emission off), not the number of serialized rows. -/
theorem C5_theorem (db : DB) (o : DumpOptions) (h : (Dump db o).error = none) :
    (Dump db o).footerTableRows =
      some (if o.isData then ((Dump db o).tablesDumped.map (advisoryCount db)).sum else 0) := by
  obtain ⟨_, _, _, _, h5, h6⟩ := Dump_success_core db o h
  obtain ⟨_, hl2, _⟩ := dumpTablesLoop_ok db (resolveOptions o).isData (Dump db o).tablesDumped h5
  rw [h6, hl2, resolveOptions_isData]

/-- C5 witness: footer value of a successful one-table dump with data. -/
theorem C5_witness :
    (Dump dbC5w oData).footerTableRows =
      some (if oData.isData then
        ((Dump dbC5w oData).tablesDumped.map (advisoryCount dbC5w)).sum else 0) :=
  C5_theorem dbC5w oData rfl

/-- C6: with a positive merge size n, the re-batcher executes the ceiling of
M over n INSERT statements for M single-row statements targeting the same
table, and with merge size 0 every statement is executed unmodified. -/
theorem C6_theorem (n : Nat) (hn : 0 < n) (t : Str) (rows : List Str) :
    (sourceMerge n t (rows.map (fun r => InsertStmt.mk t [r]))).length
      = (rows.length + (n - 1)) / n
    ∧ ∀ stmts, sourceMerge 0 t stmts = stmts := by
  constructor
  · unfold sourceMerge
    rw [if_neg (by omega)]
    have hm := mergeRun_eq_chunks n hn t rows [] (by simpa using hn)
    simp only [List.nil_append] at hm
    rw [hm, List.length_map, chunks_length n hn]
  · intro stmts
    simp [sourceMerge]

/-- C6 witness: merge size 2 on three single-row statements yields two
executed statements. -/
theorem C6_witness :
    (sourceMerge 2 tnam ([vx, vx, vx].map (fun r => InsertStmt.mk tnam [r]))).length
      = (([vx, vx, vx] : List Str).length + (2 - 1)) / 2
    ∧ ∀ stmts, sourceMerge 0 tnam stmts = stmts :=
  C6_theorem 2 (by decide) tnam [vx, vx, vx]

/-- C7 counterexample: with the explicit table list holding the same name
twice and that name classified as a view, only the first occurrence is
removed and the view name remains in the emitted table list. -/
theorem C7_counterexample :
    tableEmissionOrder oC7x [] [tv] = [tv]
    ∧ tv ∈ tableEmissionOrder oC7x [] [tv] := ⟨rfl, by decide⟩

/-- C7 (amended): the selection precedence is as claimed (discovered tables
exactly when all-tables is requested or no explicit list is given), and when
the selected list is duplicate-free every name classified as a view is absent
from the final table list. -/
theorem C7_theorem (o : DumpOptions) (allT dbViews : List Str)
    (hnd : (selectedTables o allT).Nodup) :
    selectedTables o allT = (if o.isAllTable = true ∨ o.tables = [] then allT else o.tables)
    ∧ ∀ v ∈ dbViews, v ∉ tableEmissionOrder o allT dbViews := by
  refine ⟨selectedTables_eq o allT, ?_⟩
  exact fun v hv => not_mem_removeViews dbViews (selectedTables o allT) hnd v hv

/-- C7 witness: selection and view removal on a duplicate-free list. -/
theorem C7_witness :
    selectedTables defaultOptions [ta, tv]
        = (if defaultOptions.isAllTable = true ∨ defaultOptions.tables = [] then [ta, tv]
           else defaultOptions.tables)
    ∧ ∀ v ∈ [tv], v ∉ tableEmissionOrder defaultOptions [ta, tv] [tv] :=
  C7_theorem defaultOptions [ta, tv] [tv] (by decide)

/-- C8 (amended): a dump that returns no error implies the USE statement, the
table listing (when used), the view listing (when all-views is requested),
every processed create-statement lookup and, with data on, every full-table
scan succeeded; the advisory count query is exempt, as its failure is
swallowed. -/
theorem C8_theorem (db : DB) (o : DumpOptions) (h : (Dump db o).error = none) :
    db.execUse = Except.ok ()
    ∧ ((resolveOptions o).isAllTable = true → isOkE db.showTables = true)
    ∧ (o.isAllViews = true → isOkE db.showViews = true)
    ∧ ∀ t ∈ (Dump db o).tablesDumped,
        isOkE (db.createStmt t) = true
        ∧ (o.isData = true → isOkE (db.selectAll t) = true) := by
  obtain ⟨h1, h2, h3, _, h5, _⟩ := Dump_success_core db o h
  refine ⟨h1, ?_, ?_, ?_⟩
  · intro hat
    unfold selectedTablesE at h2
    rw [if_pos hat] at h2
    exact h2
  · intro hav
    exact h3 (by rw [resolveOptions_isAllViews]; exact hav)
  · intro t ht
    obtain ⟨_, _, hl3⟩ := dumpTablesLoop_ok db (resolveOptions o).isData (Dump db o).tablesDumped h5
    obtain ⟨hcs, hwd⟩ := hl3 t ht
    refine ⟨hcs, fun hd => ?_⟩
    apply writeTableData_selectAll_ok
    exact hwd (by rw [resolveOptions_isData]; exact hd)

/-- C8 witness: the success implications evaluated on an all-ok oracle. -/
theorem C8_witness :
    dbC8w.execUse = Except.ok ()
    ∧ ((resolveOptions oData).isAllTable = true → isOkE dbC8w.showTables = true)
    ∧ (oData.isAllViews = true → isOkE dbC8w.showViews = true)
    ∧ ∀ t ∈ (Dump dbC8w oData).tablesDumped,
        isOkE (dbC8w.createStmt t) = true
        ∧ (oData.isData = true → isOkE (dbC8w.selectAll t) = true) :=
  C8_theorem dbC8w oData rfl

/-- C8 counterexample: the advisory COUNT query fails, yet the dump returns
no error: that query error is silently swallowed. -/
theorem C8_counterexample :
    dbC8x.countRows tnam = .error emsg
    ∧ (Dump dbC8x oData).error = none := ⟨rfl, rfl⟩

/-- C9: a cell scanned as NULL renders as the bare token NULL in the tuple
position, never as a quoted empty string. -/
theorem C9_theorem (row : List (Option Str)) (i : Fin row.length)
    (hnull : row.get i = none) :
    (row.map cellToSQL).get ⟨i.1, by simp⟩ = "NULL".toList
    ∧ (row.map cellToSQL).get ⟨i.1, by simp⟩ ≠ [qc, qc] := by
  have hg : (row.map cellToSQL).get ⟨i.1, by simp⟩ = cellToSQL (row.get i) := by
    simp [List.get_eq_getElem, List.getElem_map]
  rw [hg, hnull]
  exact ⟨rfl, by decide⟩

/-- C9 witness: the single-cell NULL row. -/
theorem C9_witness :
    ([(none : Option Str)].map cellToSQL).get ⟨0, by decide⟩ = "NULL".toList
    ∧ ([(none : Option Str)].map cellToSQL).get ⟨0, by decide⟩ ≠ [qc, qc] :=
  C9_theorem [none] ⟨0, by decide⟩ rfl

theorem writeTableData_selectAll_error (db : DB) (t : Str) (e : Str)
    (hs : db.selectAll t = .error e) :
    writeTableData db t = ⟨advisoryCount db t, [], [], some e⟩ := by
  simp [writeTableData, hs]

theorem writeTableData_pos (db : DB) (t : Str) (scan : List Str × List (Except Str Row))
    (hs : db.selectAll t = .ok scan) (hp : 0 < advisoryCount db t) :
    writeTableData db t = ⟨advisoryCount db t, columnNames scan.1,
      (dataLoop scan.2 [] 0).1, (dataLoop scan.2 [] 0).2⟩ := by
  simp [writeTableData, hs, hp]

theorem writeTableData_zero (db : DB) (t : Str) (scan : List Str × List (Except Str Row))
    (hs : db.selectAll t = .ok scan) (hp : ¬ 0 < advisoryCount db t) :
    writeTableData db t = ⟨advisoryCount db t, columnNames scan.1, [], none⟩ := by
  simp [writeTableData, hs, hp]

/-- C10: every flushed batch, hence every emitted INSERT statement, holds at
most 600 tuples, for every database oracle and table; the bound is the fixed
constant 600 of writeTableData, which takes no options. -/
theorem C10_theorem (db : DB) (t : Str) (b : List Str)
    (hb : b ∈ (writeTableData db t).batches) : b.length ≤ 600 := by
  cases hs : db.selectAll t with
  | error e => rw [writeTableData_selectAll_error db t e hs] at hb; simp at hb
  | ok scan =>
    by_cases hp : 0 < advisoryCount db t
    · rw [writeTableData_pos db t scan hs hp] at hb
      exact dataLoop_batch_le scan.2 [] 0 (by simp) rfl b hb
    · rw [writeTableData_zero db t scan hs hp] at hb
      simp at hb

/-- C10 witness: the one-batch table evaluated against the bound. -/
theorem C10_witness :
    [rowTuple rowx] ∈ (writeTableData dbC10w tnam).batches
    ∧ [rowTuple rowx].length ≤ 600 := by
  have hm : [rowTuple rowx] ∈ (writeTableData dbC10w tnam).batches := by decide
  exact ⟨hm, C10_theorem dbC10w tnam [rowTuple rowx] hm⟩

end Mysqldump
